import Mathlib

/-
Verification of the gruyere interactive port-viewer against its
natural-language specification.  The definitions below are a shallow
embedding of src/gruyere/main.py (the latest, most complete variant);
where a claim concerns the older variant src/gruyere-py/gruyere/main.py
a separate definition embeds that function as well.  Machine strings are
modelled as Lean String / List Char restricted to ASCII, which covers
every input appearing in the claims; integers are unbounded Int exactly
as in Python.
-/

/-! ## Character and string helpers (ASCII models of Python primitives) -/

/-- ASCII model of Python whitespace stripped by int(): space, tab,
newline, carriage return, vertical tab, form feed. -/
def pyIsSpace (c : Char) : Bool :=
  c = ' ' || c = '\t' || c = '\n' || c = '\r' || c = '\x0b' || c = '\x0c'

/-- Boolean test that the pattern is an initial segment of the list. -/
def isPrefixL : List Char → List Char → Bool
  | [], _ => true
  | _ :: _, [] => false
  | a :: as, b :: bs => a = b && isPrefixL as bs

/-- Python substring membership needle in hay (contiguous). -/
def containsSub (needle : List Char) : List Char → Bool
  | [] => isPrefixL needle []
  | c :: r => isPrefixL needle (c :: r) || containsSub needle (c :: r).tail

/-- Python str.find for a pattern: index of the first occurrence, none if
absent (the code only uses it after an in-test, so none maps to -1 there). -/
def findSub (pat : List Char) : List Char → Option Nat
  | [] => if isPrefixL pat [] then some 0 else none
  | c :: r => if isPrefixL pat (c :: r) then some 0 else (findSub pat r).map (· + 1)

/-- Python str.rfind for a single character: index of the last occurrence. -/
def rfindChar (ch : Char) : List Char → Option Nat
  | [] => none
  | c :: r =>
    match rfindChar ch r with
    | some i => some (i + 1)
    | none => if c = ch then some 0 else none

/-- Python str.rfind result as an Int, -1 when absent, as the code compares. -/
def rfindCharI (ch : Char) (l : List Char) : Int :=
  match rfindChar ch l with
  | some i => (i : Int)
  | none => -1

/-- Worker for pyReplace, structurally recursive on a fuel argument that
is kept equal to the length of the remaining list. -/
def pyReplaceGo (pat rep : List Char) : Nat → List Char → List Char
  | _, [] => []
  | 0, l => l
  | fuel + 1, c :: r =>
    if pat ≠ [] && isPrefixL pat (c :: r) then
      rep ++ pyReplaceGo pat rep fuel (List.drop (pat.length - 1) r)
    else
      c :: pyReplaceGo pat rep fuel r

/-- Python str.replace with a non-empty pattern: replace every
non-overlapping occurrence left to right.  All call sites in the source
use non-empty patterns; for an empty pattern this model is the identity. -/
def pyReplace (pat rep l : List Char) : List Char :=
  pyReplaceGo pat rep l.length l

/-- Worker for pySplitWs: cur holds the reversed characters of the word
being scanned. -/
def pySplitGo (cur : List Char) : List Char → List (List Char)
  | [] => if cur = [] then [] else [cur.reverse]
  | c :: r =>
    if pyIsSpace c then
      if cur = [] then pySplitGo [] r else cur.reverse :: pySplitGo [] r
    else pySplitGo (c :: cur) r

/-- Python str.split() with no separator: split on runs of whitespace and
drop empty fields. -/
def pySplitWs (l : List Char) : List (List Char) := pySplitGo [] l

/-- posixpath.basename: the part after the final slash. -/
def pyBasename (l : List Char) : List Char :=
  match rfindChar '/' l with
  | some i => List.drop (i + 1) l
  | none => l

/-- ASCII model of str.lower, applied character by character. -/
def lowerL (l : List Char) : List Char := l.map Char.toLower

/-- str.lower on a whole string. -/
def lowerS (s : String) : String := ⟨lowerL s.data⟩

/-- Python a in b on strings. -/
def strIn (a b : String) : Bool := containsSub a.data b.data

/-! ## parse_port (src/gruyere/main.py lines 45-50) -/

/-- A port is either the parsed integer or the original string, exactly
the int-or-str union the Python code carries around. -/
inductive Port where
  | num (n : Int)
  | str (s : String)
deriving DecidableEq

/-- Decimal value of a digit list, folded left to right. -/
def digitsToNat (l : List Char) : Nat :=
  l.foldl (fun a c => a * 10 + (c.toNat - 48)) 0

/-- Continuation of the int() digit grammar: digits with single
underscores allowed between digits. -/
def digRest (acc : Nat) : List Char → Option Nat
  | [] => some acc
  | c :: r =>
    if c = '_' then
      match r with
      | [] => none
      | d :: r2 => if d.isDigit then digRest (acc * 10 + (d.toNat - 48)) r2 else none
    else if c.isDigit then digRest (acc * 10 + (c.toNat - 48)) r
    else none

/-- The digit part of the int() grammar: non-empty, starts with a digit. -/
def digitsVal : List Char → Option Nat
  | [] => none
  | c :: r => if c.isDigit then digRest (c.toNat - 48) r else none

/-- Strip leading and trailing Python whitespace. -/
def stripWs (l : List Char) : List Char :=
  ((l.dropWhile pyIsSpace).reverse.dropWhile pyIsSpace).reverse

/-- ASCII model of the CPython int(str) conversion used by parse_port:
optional surrounding whitespace, an optional sign, then digits with
single underscores between them.  Returns none exactly when int() raises
ValueError. -/
def pyIntOfChars (l : List Char) : Option Int :=
  match stripWs l with
  | [] => none
  | c :: r =>
    if c = '+' then (digitsVal r).map (fun n => (n : Int))
    else if c = '-' then (digitsVal r).map (fun n => -(n : Int))
    else (digitsVal (c :: r)).map (fun n => (n : Int))

/-- parse_port: try int(port_str), fall back to the string unchanged. -/
def parse_port (s : String) : Port :=
  match pyIntOfChars s.data with
  | some n => Port.num n
  | none => Port.str s

/-! ## extract_app_name (src/gruyere/main.py lines 53-91) -/

/-- Strip the helper suffixes removed at the end of extract_app_name. -/
def stripHelperSuffixes (l : List Char) : List Char :=
  pyReplace " (GPU)".data []
    (pyReplace " (Renderer)".data [] (pyReplace " (Plugin)".data [] l))

/-- The .app/ branch of extract_app_name: take the path up to and
including the first .app, then the component after its last slash, with
every .app occurrence removed; none when there is no slash before it
(the code then falls through). -/
def appBundleName (cmd : List Char) : Option (List Char) :=
  match findSub ".app/".data cmd with
  | some i =>
    let pre := List.take (i + 4) cmd
    match rfindChar '/' pre with
    | some j => some (pyReplace ".app".data [] (List.drop (j + 1) pre))
    | none => none
  | none => none

/-- The .exe branch of extract_app_name: take the path up to and
including the first .exe, then the component after the last slash or
backslash, with every .exe occurrence removed; none when neither
separator occurs (the code then falls through). -/
def exeName (cmd : List Char) : Option (List Char) :=
  match findSub ".exe".data cmd with
  | some i =>
    let pre := List.take (i + 4) cmd
    let j := max (rfindCharI '\\' pre) (rfindCharI '/' pre)
    if j ≠ -1 then some (pyReplace ".exe".data [] (List.drop (j + 1).toNat pre))
    else none
  | none => none

/-- extract_app_name on the character list of the command. -/
def extractAppNameL (cmd : List Char) : List Char :=
  if cmd = [] || cmd = "N/A".data then cmd
  else
    match appBundleName cmd with
    | some r => r
    | none =>
      match exeName cmd with
      | some r => r
      | none =>
        match pySplitWs cmd with
        | [] => cmd
        | w :: _ => stripHelperSuffixes (pyBasename w)

/-- extract_app_name: derive the short display name from a command line. -/
def extract_app_name (command : String) : String :=
  ⟨extractAppNameL command.data⟩

/-! ## Process records, deduplication and sorting (lines 22-28, 162-173) -/

/-- The Process dataclass. -/
structure Process where
  pid : Int
  port : Port
  user : String
  command : String
  name : String
deriving DecidableEq

/-- Deduplication key (pid, port). -/
def pkey (p : Process) : Int × Port := (p.pid, p.port)

/-- The dedup loop of get_processes: seen starts empty, first occurrence
of each key is kept in order. -/
def dedupGo (seen : List (Int × Port)) : List Process → List Process
  | [] => []
  | p :: r =>
    if pkey p ∈ seen then dedupGo seen r
    else p :: dedupGo (pkey p :: seen) r

/-- Deduplicate by (pid, port), keeping the first occurrence. -/
def dedupPidPort (l : List Process) : List Process := dedupGo [] l

/-- Python string comparison: lexicographic by code point. -/
def clLe : List Char → List Char → Bool
  | [], _ => true
  | _ :: _, [] => false
  | a :: as, b :: bs =>
    if a.toNat < b.toNat then true
    else if b.toNat < a.toNat then false
    else clLe as bs

/-- The sort key order of get_processes: key is the tuple
(isinstance(port, str), port), so numeric ports come first in ascending
order, then string ports in lexicographic order. -/
def portLeB : Port → Port → Bool
  | Port.num a, Port.num b => a ≤ b
  | Port.num _, Port.str _ => true
  | Port.str _, Port.num _ => false
  | Port.str s, Port.str t => clLe s.data t.data

/-- Strict version of the port key order. -/
def portLtB (a b : Port) : Bool := portLeB a b && !portLeB b a

/-- Stable insertion step: the new element goes before the first element
that is not strictly below it, so elements with an equal key keep their
original relative order. -/
def insertByPort (a : Process) : List Process → List Process
  | [] => [a]
  | b :: r => if portLtB b.port a.port then b :: insertByPort a r else a :: b :: r

/-- Stable sort by the port key.  Python list.sort is a stable sort by
the same key; any stable sort under a total preorder produces the same
list, so this insertion sort is the extensional model of line 172. -/
def sortByPort : List Process → List Process
  | [] => []
  | a :: r => insertByPort a (sortByPort r)

/-- The pure tail of get_processes: the raw records gathered from the
socket table are deduplicated by (pid, port) and stably sorted by the
port key (lines 162-173). -/
def get_processes (raw : List Process) : List Process :=
  sortByPort (dedupPidPort raw)

/-! ## Filters (lines 338-342 and 435-453) -/

/-- apply_filter: empty text is the identity, otherwise keep processes
whose lowercased name contains the lowercased filter text. -/
def apply_filter (filterText : String) (all_processes : List Process) : List Process :=
  if filterText = "" then all_processes
  else all_processes.filter (fun p => strIn (lowerS filterText) (lowerS p.name))

/-- Line 440: if cli_port is set, keep processes with exactly that
numeric port. -/
def cliPortFilter : Option Int → List Process → List Process
  | some n, ps => ps.filter (fun p => decide (p.port = Port.num n))
  | none, ps => ps

/-- Line 442: if cli_user is set, keep processes with exactly that user. -/
def cliUserFilter : Option String → List Process → List Process
  | some u, ps => ps.filter (fun p => decide (p.user = u))
  | none, ps => ps

/-- Line 444: if cli_command is set, keep processes whose lowercased
command contains the lowercased filter. -/
def cliCommandFilter : Option String → List Process → List Process
  | some t, ps => ps.filter (fun p => strIn (lowerS t) (lowerS p.command))
  | none, ps => ps

/-- The three sequential CLI-level filters inside get_filtered_processes
(lines 440-447): exact port, then exact user, then case-insensitive
command substring. -/
def applyCliFilters (cliPort : Option Int) (cliUser cliCommand : Option String)
    (ps : List Process) : List Process :=
  cliCommandFilter cliCommand (cliUserFilter cliUser (cliPortFilter cliPort ps))

/-- get_filtered_processes: fresh enumeration, CLI filters, then the
interactive filter when filtering mode is active. -/
def get_filtered_processes (cliPort : Option Int) (cliUser cliCommand : Option String)
    (interactive : Bool) (filterText : String) (raw : List Process) : List Process :=
  let base := applyCliFilters cliPort cliUser cliCommand (get_processes raw)
  if interactive then apply_filter filterText base else base

/-! ## Pagination indicator (lines 181-194, and the gruyere-py variant) -/

def MAX_DISPLAY_PROCESSES : Nat := 4

/-- _show_pagination_indicator of src/gruyere/main.py: none when no
indicator is appended (total fits in the panels), otherwise the dot row,
true marking the filled dot.  At its call site panelsLen is always 4. -/
def paginationDots (total selected panelsLen : Nat) : Option (List Bool) :=
  if total ≤ panelsLen then none
  else some ((List.range ((total + panelsLen - 1) / panelsLen)).map
    (fun i => decide (i = selected / MAX_DISPLAY_PROCESSES)))

/-- _show_pagination_indicator of src/gruyere-py/gruyere/main.py: the
filled dot position additionally wraps modulo 4. -/
def paginationDotsPy (total selected panelsLen : Nat) : Option (List Bool) :=
  if total ≤ panelsLen then none
  else some ((List.range ((total + panelsLen - 1) / panelsLen)).map
    (fun i => decide (i = selected / panelsLen % 4)))

/-! ## Session state machine (main, lines 399-651) -/

/-- The mutable session variables of main threaded through the loop. -/
structure SessState where
  cliPort : Option Int
  cliUser : Option String
  cliCommand : Option String
  selected : Int
  filterText : String
  isFiltering : Bool
  details : Bool
  processes : List Process
  running : Bool
  processToKill : Option Process
deriving DecidableEq

/-- A keypress as dispatched by the loop: the arrow and control keys are
multi-character escape sequences distinct from printable characters. -/
inductive KeyIn where
  | up
  | down
  | enter
  | backspace
  | printable (c : Char)
deriving DecidableEq

/-- Line 519: ch == key.UP or ch == the letter k. -/
def navUp : KeyIn → Bool
  | KeyIn.up => true
  | KeyIn.printable c => c = 'k'
  | _ => false

/-- Line 522: ch == key.DOWN or ch == the letter j. -/
def navDown : KeyIn → Bool
  | KeyIn.down => true
  | KeyIn.printable c => c = 'j'
  | _ => false

/-- ASCII model of str.isprintable (space through tilde).  Every key in
the claims is ASCII. -/
def isPrintableCh (c : Char) : Bool := 32 ≤ c.val && c.val ≤ 126

/-- Some CLI filter is active (lines 537-541 and 610-614). -/
def cliActiveB (s : SessState) : Bool :=
  s.cliPort.isSome || s.cliUser.isSome || s.cliCommand.isSome

/-- Python slicing text[:-1]. -/
def strDropLast (t : String) : String := ⟨t.data.dropLast⟩

/-- Python list indexing, including the negative-index wraparound; none
models an IndexError (never reached in the claims). -/
def pyIndex (l : List α) (i : Int) : Option α :=
  if 0 ≤ i then l[i.toNat]?
  else if 0 ≤ i + l.length then l[(i + l.length).toNat]? else none

/-- Keys handled while is_filtering and not needs_update
(lines 527-568).  E is the list of raw records the OS would deliver to
get_processes() at this instant. -/
def stepFiltering (E : List Process) (s : SessState) : KeyIn → SessState
  | KeyIn.backspace =>
    if s.filterText ≠ "" then
      { s with filterText := strDropLast s.filterText,
               processes := apply_filter (strDropLast s.filterText) (get_processes E),
               selected := 0 }
    else
      let clear := s.processes.isEmpty && cliActiveB s
      let cp := if clear then none else s.cliPort
      let cu := if clear then none else s.cliUser
      let cc := if clear then none else s.cliCommand
      { s with isFiltering := false, cliPort := cp, cliUser := cu, cliCommand := cc,
               processes := get_filtered_processes cp cu cc false s.filterText E,
               selected := 0 }
  | KeyIn.enter =>
    if s.processes = [] then
      { s with isFiltering := false, processes := get_processes E,
               selected := 0, processToKill := none }
    else
      { s with isFiltering := false, processToKill := pyIndex s.processes s.selected }
  | KeyIn.printable c =>
    if isPrintableCh c then
      { s with filterText := s.filterText.push c,
               processes := apply_filter (s.filterText.push c) (get_processes E),
               selected := 0 }
    else s
  | _ => s

/-- Keys handled in normal mode (lines 581-625). -/
def stepNormal (E : List Process) (s : SessState) : KeyIn → SessState
  | KeyIn.printable c =>
    if c = 'd' then { s with details := !s.details }
    else if c = '/' then { s with isFiltering := true, filterText := "" }
    else if c = 'q' then { s with running := false }
    else s
  | KeyIn.enter =>
    if s.processes = [] then s
    else { s with processToKill := pyIndex s.processes s.selected }
  | KeyIn.backspace =>
    if s.processes.isEmpty && cliActiveB s then
      { s with cliPort := none, cliUser := none, cliCommand := none,
               processes := get_filtered_processes none none none s.isFiltering s.filterText E,
               selected := 0 }
    else s
  | _ => s

/-- One iteration of the key loop (lines 516-633): the Up/Down branch
runs first in either mode, then the mode-specific handling. -/
def step (E : List Process) (s : SessState) (k : KeyIn) : SessState :=
  if navUp k then { s with selected := max 0 (s.selected - 1) }
  else if navDown k then
    { s with selected := min ((s.processes.length : Int) - 1) (s.selected + 1) }
  else if s.isFiltering then stepFiltering E s k
  else stepNormal E s k

/-- A sequence of keypresses under a fixed OS snapshot E. -/
def runSteps (E : List Process) (s : SessState) (ks : List KeyIn) : SessState :=
  ks.foldl (step E) s

/-- Pressing n in the confirmation view: _show_confirmation_view returns
False, the kill block is skipped, and the outer loop resets
process_to_kill; every other session variable is untouched. -/
def cancelKill (s : SessState) : SessState := { s with processToKill := none }

/-- The two psutil failure modes of a kill. -/
inductive KillErr where
  | noSuchProcess
  | accessDenied
deriving DecidableEq

/-- kill_process (lines 176-178) over an oracle for the OS: world pid =
none means psutil.Process(pid) raises NoSuchProcess, some false means
proc.kill() raises AccessDenied, some true means the kill succeeds. -/
def kill_process (world : Int → Option Bool) (pid : Int) : Except KillErr Unit :=
  match world pid with
  | none => Except.error KillErr.noSuchProcess
  | some false => Except.error KillErr.accessDenied
  | some true => Except.ok ()

/-- The confirmed-kill block of main (lines 639-642).  There is no
exception handler around kill_process anywhere in main, so a failure
propagates and aborts the session (the error branch); on success the
list is re-enumerated with the unfiltered get_processes and the
selection clamped with min.  enumAfter is the raw socket table after the
kill. -/
def confirmKillYes (world : Int → Option Bool) (enumAfter : List Process)
    (s : SessState) (p : Process) : Except KillErr SessState :=
  match kill_process world p.pid with
  | Except.error e => Except.error e
  | Except.ok _ => Except.ok
    { s with processes := get_processes enumAfter,
             selected := min s.selected (((get_processes enumAfter).length : Int) - 1),
             processToKill := none }

/-- One tick of refresh_processes_loop (lines 478-487): re-enumerate
with all active filters, then adjust the selection exactly as the code
does. -/
def refreshStep (E : List Process) (s : SessState) : SessState :=
  let ps := get_filtered_processes s.cliPort s.cliUser s.cliCommand s.isFiltering s.filterText E
  let sel :=
    if (ps.length : Int) ≤ s.selected ∧ ps ≠ [] then (ps.length : Int) - 1
    else if ps = [] then 0 else s.selected
  { s with processes := ps, selected := sel }

/-- The selection invariant asserted by the spec: the index is in range,
or pinned to 0 on an empty visible set. -/
abbrev selInv (s : SessState) : Prop :=
  0 ≤ s.selected ∧
    (s.selected < (s.processes.length : Int) ∨
      (s.processes.length = 0 ∧ s.selected = 0))

/-! ## Concrete fixtures used by witnesses and counterexamples -/

/-- A node process listening on 3000. -/
def pNode : Process := ⟨1, Port.num 3000, "alice", "node server.js", "node"⟩

/-- A python process listening on 8000. -/
def pPython : Process := ⟨2, Port.num 8000, "bob", "python3 -m http.server", "python3"⟩

/-- A record sharing the key (7, 80) with pDupB but with different
payload fields. -/
def pDupA : Process := ⟨7, Port.num 80, "root", "nginx", "nginx"⟩

/-- A second record with the key (7, 80). -/
def pDupB : Process := ⟨7, Port.num 80, "N/A", "N/A", "N/A"⟩

/-- A filtering-mode state whose visible set is empty, as after typing a
filter with no matches. -/
def sEmptyFiltering : SessState :=
  { cliPort := none, cliUser := none, cliCommand := none, selected := 0,
    filterText := "x", isFiltering := true, details := false,
    processes := [], running := true, processToKill := none }

/-- A filtering-mode state with an active CLI port filter 80 under which
the enumeration [pNode] (port 3000) is empty. -/
def sCliFiltering : SessState :=
  { cliPort := some 80, cliUser := none, cliCommand := none, selected := 0,
    filterText := "", isFiltering := true, details := false,
    processes := [], running := true, processToKill := none }

/-- A browse-mode state over the enumeration [pNode, pPython]. -/
def sBrowse : SessState :=
  { cliPort := none, cliUser := none, cliCommand := none, selected := 0,
    filterText := "", isFiltering := false, details := false,
    processes := get_processes [pNode, pPython], running := true, processToKill := none }

/-- A browse-mode state holding only pNode, as when pNode was selected
for killing. -/
def sKill : SessState :=
  { cliPort := none, cliUser := none, cliCommand := none, selected := 0,
    filterText := "", isFiltering := false, details := false,
    processes := [pNode], running := true, processToKill := some pNode }

/-! ## Theorems -/

theorem spaceNotDigit (c : Char) (h : pyIsSpace c = true) : c.isDigit = false := by
  simp only [pyIsSpace, Bool.or_eq_true, decide_eq_true_eq] at h
  rcases h with ⟨⟨⟨⟨h | h⟩ | h⟩ | h⟩ | h⟩ | h <;> subst h <;> decide

theorem digitNotSpace (c : Char) (h : c.isDigit = true) : pyIsSpace c = false := by
  cases hs : pyIsSpace c
  · rfl
  · rw [spaceNotDigit c hs] at h
    cases h

theorem dropWhileAllNot (p : Char → Bool) (l : List Char)
    (h : ∀ c ∈ l, p c = false) : l.dropWhile p = l := by
  cases l with
  | nil => rfl
  | cons c r => simp [List.dropWhile_cons, h c (List.mem_cons_self c r)]

theorem stripWsDigits (l : List Char) (hd : l.all Char.isDigit = true) :
    stripWs l = l := by
  have hall : ∀ c ∈ l, Char.isDigit c = true := by
    simpa [List.all_eq_true] using hd
  have h1 : l.dropWhile pyIsSpace = l :=
    dropWhileAllNot pyIsSpace l (fun c hc => digitNotSpace c (hall c hc))
  have h2 : l.reverse.dropWhile pyIsSpace = l.reverse :=
    dropWhileAllNot pyIsSpace l.reverse
      (fun c hc => digitNotSpace c (hall c (List.mem_reverse.mp hc)))
  unfold stripWs
  rw [h1, h2, List.reverse_reverse]

theorem digRestCons (acc : Nat) (c : Char) (r : List Char) :
    digRest acc (c :: r) =
      if c = '_' then
        (match r with
         | [] => none
         | d :: r2 => if d.isDigit then digRest (acc * 10 + (d.toNat - 48)) r2 else none)
      else if c.isDigit then digRest (acc * 10 + (c.toNat - 48)) r
      else none := by
  rw [digRest.eq_def]

theorem digRestAllDigits (l : List Char) :
    ∀ acc : Nat, l.all Char.isDigit = true →
    digRest acc l = some (l.foldl (fun a c => a * 10 + (c.toNat - 48)) acc) := by
  induction l with
  | nil => intro acc _; rfl
  | cons c r ih =>
    intro acc h
    simp only [List.all_cons, Bool.and_eq_true] at h
    have hc : c ≠ '_' := by
      intro e
      subst e
      simp at h
    rw [digRestCons, if_neg hc, if_pos h.1, List.foldl_cons]
    exact ih (acc * 10 + (c.toNat - 48)) h.2

theorem digitsValAllDigits (l : List Char) (hne : l ≠ []) (hd : l.all Char.isDigit = true) :
    digitsVal l = some (digitsToNat l) := by
  cases l with
  | nil => cases hne rfl
  | cons c r =>
    simp only [List.all_cons, Bool.and_eq_true] at hd
    simp only [digitsVal, hd.1, if_pos]
    rw [digRestAllDigits r (c.toNat - 48) hd.2]
    simp [digitsToNat, List.foldl_cons]

theorem pyIntOfCharsDigits (l : List Char) (hne : l ≠ []) (hd : l.all Char.isDigit = true) :
    pyIntOfChars l = some ((digitsToNat l : Nat) : Int) := by
  cases l with
  | nil => cases hne rfl
  | cons c r =>
    have hall : ∀ x ∈ c :: r, Char.isDigit x = true := by
      simpa [List.all_eq_true] using hd
    have hcd : c.isDigit = true := hall c (List.mem_cons_self c r)
    have hplus : c ≠ '+' := by
      intro e
      subst e
      simp at hcd
    have hminus : c ≠ '-' := by
      intro e
      subst e
      simp at hcd
    unfold pyIntOfChars
    rw [stripWsDigits (c :: r) hd]
    simp only [if_neg hplus, if_neg hminus]
    rw [digitsValAllDigits (c :: r) hne hd]
    rfl

/-- Claim C8 (amended): parse_port maps every string of decimal digits to
its integer value; every string rejected by the Python int() conversion
(in particular the empty string, the wildcard form and the word invalid)
is preserved unchanged as the string-port variant.  Strings such as +5
that int() also accepts are converted rather than preserved. -/
theorem parse_port_spec :
    (∀ s : String, s.data ≠ [] → s.data.all Char.isDigit = true →
      parse_port s = Port.num (digitsToNat s.data)) ∧
    (∀ s : String, pyIntOfChars s.data = none → parse_port s = Port.str s) ∧
    parse_port "" = Port.str "" ∧
    parse_port "*:8000" = Port.str "*:8000" ∧
    parse_port "invalid" = Port.str "invalid" := by
  refine ⟨?_, ?_, by decide, by decide, by decide⟩
  · intro s h1 h2
    unfold parse_port
    rw [pyIntOfCharsDigits s.data h1 h2]
  · intro s h
    unfold parse_port
    rw [h]

/-- Claim C8 counterexample: the string +5 consists not only of decimal
digits, yet parse_port converts it to the numeric port 5 instead of
returning it unchanged, because the Python int() conversion accepts a
leading sign. -/
theorem parse_port_plus5_not_preserved :
    "+5".data.all Char.isDigit = false ∧ parse_port "+5" = Port.num 5 := by decide

/-- Witness for parse_port_spec at the concrete inputs 8000 and the
wildcard string. -/
theorem parse_port_spec_witness :
    ("8000".data ≠ [] ∧ "8000".data.all Char.isDigit = true ∧
      parse_port "8000" = Port.num (digitsToNat "8000".data)) ∧
    (pyIntOfChars "*:8000".data = none ∧ parse_port "*:8000" = Port.str "*:8000") :=
  ⟨⟨by decide, by decide, parse_port_spec.1 "8000" (by decide) (by decide)⟩,
   ⟨by decide, parse_port_spec.2.1 "*:8000" (by decide)⟩⟩

/-- Claim C6: extract_app_name is a pure total function on strings
mapping the empty string and the sentinel to themselves, a plain path to
its basename, a command with arguments to its first token basename, a
macOS bundle helper path to the enclosing bundle name, and a Windows
executable path to the executable name without extension. -/
theorem extract_app_name_reference_values :
    extract_app_name "" = "" ∧
    extract_app_name "N/A" = "N/A" ∧
    extract_app_name "/usr/libexec/rapportd" = "rapportd" ∧
    extract_app_name "python3 -m http.server 8000" = "python3" ∧
    extract_app_name "/Applications/Visual Studio Code.app/Contents/Frameworks/Code Helper (Plugin).app/Contents/MacOS/Code Helper (Plugin)" = "Visual Studio Code" ∧
    extract_app_name "C:\\Program Files\\Google\\Chrome\\Application\\chrome.exe --flag" = "chrome" := by
  decide

theorem filterComm (p q : α → Bool) (l : List α) :
    (l.filter p).filter q = (l.filter q).filter p := by
  induction l with
  | nil => rfl
  | cons a t ih =>
    by_cases hp : p a <;> by_cases hq : q a <;>
      simp [List.filter_cons, hp, hq, ih]

theorem filterIdem (p : α → Bool) (l : List α) :
    (l.filter p).filter p = l.filter p := by
  induction l with
  | nil => rfl
  | cons a t ih =>
    by_cases hp : p a <;> simp [List.filter_cons, hp, ih]

theorem cliPortUserComm (cp : Option Int) (cu : Option String) (l : List Process) :
    cliPortFilter cp (cliUserFilter cu l) = cliUserFilter cu (cliPortFilter cp l) := by
  cases cp <;> cases cu <;> simp [cliPortFilter, cliUserFilter, filterComm, Bool.and_comm]

theorem cliPortCommandComm (cp : Option Int) (cc : Option String) (l : List Process) :
    cliPortFilter cp (cliCommandFilter cc l) = cliCommandFilter cc (cliPortFilter cp l) := by
  cases cp <;> cases cc <;> simp [cliPortFilter, cliCommandFilter, filterComm, Bool.and_comm]

theorem cliUserCommandComm (cu cc : Option String) (l : List Process) :
    cliUserFilter cu (cliCommandFilter cc l) = cliCommandFilter cc (cliUserFilter cu l) := by
  cases cu <;> cases cc <;> simp [cliUserFilter, cliCommandFilter, filterComm, Bool.and_comm]

theorem cliPortIdem (cp : Option Int) (l : List Process) :
    cliPortFilter cp (cliPortFilter cp l) = cliPortFilter cp l := by
  cases cp <;> simp [cliPortFilter, filterIdem]

theorem cliUserIdem (cu : Option String) (l : List Process) :
    cliUserFilter cu (cliUserFilter cu l) = cliUserFilter cu l := by
  cases cu <;> simp [cliUserFilter, filterIdem]

theorem cliCommandIdem (cc : Option String) (l : List Process) :
    cliCommandFilter cc (cliCommandFilter cc l) = cliCommandFilter cc l := by
  cases cc <;> simp [cliCommandFilter, filterIdem]

/-- Claim C7: the CLI filter pass with all three filters unset is the
identity; a port filter and a user filter commute; applying the same
filter pass (CLI) or the same interactive filter twice equals applying
it once; and the interactive filter with empty text is the identity. -/
theorem filter_composition_laws :
    (∀ ps : List Process, applyCliFilters none none none ps = ps) ∧
    (∀ (n : Int) (u : String) (ps : List Process),
      applyCliFilters (some n) none none (applyCliFilters none (some u) none ps) =
        applyCliFilters none (some u) none (applyCliFilters (some n) none none ps)) ∧
    (∀ (cp : Option Int) (cu cc : Option String) (ps : List Process),
      applyCliFilters cp cu cc (applyCliFilters cp cu cc ps) =
        applyCliFilters cp cu cc ps) ∧
    (∀ (t : String) (ps : List Process),
      apply_filter t (apply_filter t ps) = apply_filter t ps) ∧
    (∀ ps : List Process, apply_filter "" ps = ps) := by
  refine ⟨fun ps => rfl, ?_, ?_, ?_, fun ps => rfl⟩
  · intro n u ps
    simp [applyCliFilters, cliCommandFilter, cliUserFilter, cliPortFilter, cliPortUserComm, Bool.and_comm]
  · intro cp cu cc ps
    simp only [applyCliFilters]
    rw [cliPortCommandComm, cliPortUserComm, cliPortIdem,
        cliUserCommandComm, cliUserIdem, cliCommandIdem]
  · intro t ps
    by_cases ht : t = ""
    · subst ht
      rfl
    · simp [apply_filter, ht, filterIdem]

theorem clLeRefl : ∀ s : List Char, clLe s s = true
  | [] => rfl
  | a :: as => by
    simp only [clLe, Nat.lt_irrefl, if_false]
    exact clLeRefl as

theorem clLeTotal (s : List Char) : ∀ t, clLe s t = true ∨ clLe t s = true := by
  induction s with
  | nil => intro t; left; rfl
  | cons a as ih =>
    intro t
    cases t with
    | nil => right; rfl
    | cons b bs =>
      simp only [clLe]
      rcases Nat.lt_trichotomy a.toNat b.toNat with h | h | h
      · left
        simp [h]
      · rw [h]
        simp only [Nat.lt_irrefl, if_false]
        exact ih bs
      · right
        simp [h]

theorem clLeTrans (s : List Char) : ∀ t u, clLe s t = true → clLe t u = true →
    clLe s u = true := by
  induction s with
  | nil => intro t u _ _; rfl
  | cons a as ih =>
    intro t u h1 h2
    cases t with
    | nil => simp [clLe] at h1
    | cons b bs =>
      cases u with
      | nil => simp [clLe] at h2
      | cons c cs =>
        simp only [clLe] at h1 h2 ⊢
        by_cases hab : a.toNat < b.toNat <;> by_cases hba : b.toNat < a.toNat <;>
          by_cases hbc : b.toNat < c.toNat <;> by_cases hcb : c.toNat < b.toNat <;>
          by_cases hac : a.toNat < c.toNat <;> by_cases hca : c.toNat < a.toNat <;>
          simp_all <;>
          first
          | omega
          | (exact Or.inr (ih bs cs h1 h2))

theorem portLeBRefl : ∀ x : Port, portLeB x x = true
  | Port.num n => by simp [portLeB]
  | Port.str s => clLeRefl s.data

theorem portLeBTotal : ∀ x y : Port, portLeB x y = true ∨ portLeB y x = true
  | Port.num a, Port.num b => by simp [portLeB]; omega
  | Port.num _, Port.str _ => Or.inl rfl
  | Port.str _, Port.num _ => Or.inr rfl
  | Port.str s, Port.str t => clLeTotal s.data t.data

theorem portLeBTrans : ∀ x y z : Port, portLeB x y = true → portLeB y z = true →
    portLeB x z = true
  | Port.num a, Port.num b, Port.num c, h1, h2 => by
    simp [portLeB] at h1 h2 ⊢
    omega
  | Port.num _, _, Port.str _, _, _ => rfl
  | Port.num _, Port.str _, Port.num _, _, h2 => by simp [portLeB] at h2
  | Port.str _, Port.num _, _, h1, _ => by simp [portLeB] at h1
  | Port.str _, Port.str _, Port.num _, _, h2 => by simp [portLeB] at h2
  | Port.str s, Port.str t, Port.str u, h1, h2 => clLeTrans s.data t.data u.data h1 h2

theorem insertByPortPerm (a : Process) (l : List Process) :
    List.Perm (insertByPort a l) (a :: l) := by
  induction l with
  | nil => exact List.Perm.refl _
  | cons b t ih =>
    by_cases h : portLtB b.port a.port
    · simp only [insertByPort, if_pos h]
      exact (ih.cons b).trans (List.Perm.swap a b t)
    · simp [insertByPort, if_neg h]

theorem sortByPortPerm (l : List Process) : List.Perm (sortByPort l) l := by
  induction l with
  | nil => exact List.Perm.refl _
  | cons a t ih => exact (insertByPortPerm a (sortByPort t)).trans (ih.cons a)

theorem insertByPortSorted (a : Process) (l : List Process)
    (h : l.Pairwise (fun p q => portLeB p.port q.port = true)) :
    (insertByPort a l).Pairwise (fun p q => portLeB p.port q.port = true) := by
  induction l with
  | nil => simp [insertByPort]
  | cons b t ih =>
    rcases List.pairwise_cons.mp h with ⟨hb, ht⟩
    by_cases hlt : portLtB b.port a.port = true
    · simp only [insertByPort, if_pos hlt]
      refine List.pairwise_cons.mpr ⟨?_, ih ht⟩
      intro x hx
      rcases List.mem_cons.mp ((insertByPortPerm a t).mem_iff.mp hx) with rfl | hxt
      · have := hlt
        simp only [portLtB, Bool.and_eq_true] at this
        exact this.1
      · exact hb x hxt
    · simp only [insertByPort, if_neg hlt]
      have hab : portLeB a.port b.port = true := by
        cases hx : portLeB a.port b.port with
        | true => rfl
        | false =>
          exfalso
          apply hlt
          rcases portLeBTotal a.port b.port with h1 | h1
          · rw [hx] at h1
            cases h1
          · simp [portLtB, h1, hx]
      refine List.pairwise_cons.mpr ⟨?_, h⟩
      intro x hx
      rcases List.mem_cons.mp hx with rfl | hxt
      · exact hab
      · exact portLeBTrans _ _ _ hab (hb x hxt)

theorem sortByPortSorted (l : List Process) :
    (sortByPort l).Pairwise (fun p q => portLeB p.port q.port = true) := by
  induction l with
  | nil => simp [sortByPort]
  | cons a t ih => exact insertByPortSorted a (sortByPort t) ih

theorem dedupGoMem (l : List Process) : ∀ (seen : List (Int × Port)) (p : Process),
    p ∈ dedupGo seen l → pkey p ∉ seen ∧ p ∈ l := by
  induction l with
  | nil => intro seen p hp; cases hp
  | cons q r ih =>
    intro seen p hp
    by_cases hq : pkey q ∈ seen
    · rw [dedupGo, if_pos hq] at hp
      rcases ih seen p hp with ⟨h1, h2⟩
      exact ⟨h1, List.mem_cons_of_mem q h2⟩
    · rw [dedupGo, if_neg hq] at hp
      rcases List.mem_cons.mp hp with rfl | hp2
      · exact ⟨hq, List.mem_cons_self p r⟩
      · rcases ih (pkey q :: seen) p hp2 with ⟨h1, h2⟩
        exact ⟨fun hin => h1 (List.mem_cons_of_mem _ hin), List.mem_cons_of_mem q h2⟩

theorem dedupGoFind (l : List Process) : ∀ (seen : List (Int × Port)) (p : Process),
    p ∈ dedupGo seen l → l.find? (fun q => decide (pkey q = pkey p)) = some p := by
  induction l with
  | nil => intro seen p hp; cases hp
  | cons q r ih =>
    intro seen p hp
    by_cases hq : pkey q ∈ seen
    · rw [dedupGo, if_pos hq] at hp
      have hne : pkey q ≠ pkey p := by
        intro e
        exact (dedupGoMem r seen p hp).1 (e ▸ hq)
      rw [List.find?_cons_of_neg _ (by simpa using hne)]
      exact ih seen p hp
    · rw [dedupGo, if_neg hq] at hp
      rcases List.mem_cons.mp hp with rfl | hp2
      · exact List.find?_cons_of_pos _ (by simp)
      · have hne : pkey q ≠ pkey p := by
          intro e
          exact (dedupGoMem r (pkey q :: seen) p hp2).1 (e ▸ List.mem_cons_self _ _)
        rw [List.find?_cons_of_neg _ (by simpa using hne)]
        exact ih (pkey q :: seen) p hp2

theorem dedupGoCovers (l : List Process) : ∀ (seen : List (Int × Port)) (p : Process),
    p ∈ l → pkey p ∈ seen ∨ ∃ q ∈ dedupGo seen l, pkey q = pkey p := by
  induction l with
  | nil => intro seen p hp; cases hp
  | cons q r ih =>
    intro seen p hp
    by_cases hq : pkey q ∈ seen
    · rw [dedupGo, if_pos hq]
      rcases List.mem_cons.mp hp with rfl | hp2
      · exact Or.inl hq
      · exact ih seen p hp2
    · rw [dedupGo, if_neg hq]
      rcases List.mem_cons.mp hp with rfl | hp2
      · exact Or.inr ⟨p, List.mem_cons_self _ _, rfl⟩
      · rcases ih (pkey q :: seen) p hp2 with hin | ⟨x, hx1, hx2⟩
        · rcases List.mem_cons.mp hin with he | hin2
          · exact Or.inr ⟨q, List.mem_cons_self _ _, he.symm⟩
          · exact Or.inl hin2
        · exact Or.inr ⟨x, List.mem_cons_of_mem q hx1, hx2⟩

theorem dedupGoPairwise (l : List Process) : ∀ seen : List (Int × Port),
    (dedupGo seen l).Pairwise (fun a b => pkey a ≠ pkey b) := by
  induction l with
  | nil => intro seen; simp [dedupGo]
  | cons q r ih =>
    intro seen
    by_cases hq : pkey q ∈ seen
    · rw [dedupGo, if_pos hq]
      exact ih seen
    · rw [dedupGo, if_neg hq]
      refine List.pairwise_cons.mpr ⟨?_, ih (pkey q :: seen)⟩
      intro x hx e
      exact (dedupGoMem r (pkey q :: seen) x hx).1 (e ▸ List.mem_cons_self _ _)

theorem filterPortInsert (b : Port) (a : Process) (l : List Process) :
    (insertByPort a l).filter (fun q => decide (q.port = b)) =
      if a.port = b then a :: l.filter (fun q => decide (q.port = b))
      else l.filter (fun q => decide (q.port = b)) := by
  induction l with
  | nil =>
    by_cases hb : a.port = b <;> simp [insertByPort, List.filter_cons, hb]
  | cons y t ih =>
    by_cases hlt : portLtB y.port a.port = true
    · have hya : y.port ≠ a.port := by
        intro e
        rw [portLtB, e] at hlt
        simp at hlt
      simp only [insertByPort, if_pos hlt]
      by_cases hab : a.port = b
      · have hyb : ¬ (y.port = b) := fun e => hya (e.trans hab.symm)
        simp [List.filter_cons, hyb, ih, hab]
      · simp [List.filter_cons, ih, hab]
    · simp only [insertByPort, if_neg hlt]
      by_cases hab : a.port = b <;> simp [List.filter_cons, hab]

theorem filterPortSort (b : Port) (l : List Process) :
    (sortByPort l).filter (fun q => decide (q.port = b)) =
      l.filter (fun q => decide (q.port = b)) := by
  induction l with
  | nil => rfl
  | cons a t ih =>
    rw [sortByPort, filterPortInsert, ih]
    by_cases hab : a.port = b <;> simp [List.filter_cons, hab]

/-- Claim C10: deduplication keeps the first record in enumeration order
for each (pid, port) key: every surviving record is the first record of
its key in the raw input (so its user, command and name fields are the
first occurrence ones), and every raw record has a surviving
representative with its key. -/
theorem dedup_keeps_first_occurrence :
    (∀ (l : List Process) (p : Process), p ∈ dedupPidPort l →
      l.find? (fun q => decide (pkey q = pkey p)) = some p) ∧
    (∀ (l : List Process) (p : Process), p ∈ l →
      ∃ q ∈ dedupPidPort l, pkey q = pkey p) := by
  constructor
  · intro l p hp
    exact dedupGoFind l [] p hp
  · intro l p hp
    rcases dedupGoCovers l [] p hp with hin | h
    · cases hin
    · exact h

/-- Witness for dedup_keeps_first_occurrence on the concrete raw list
[pDupA, pDupB] whose two records share the key (7, 80): the survivor is
pDupA, the first one. -/
theorem dedup_keeps_first_occurrence_witness :
    (pDupA ∈ dedupPidPort [pDupA, pDupB] ∧
      [pDupA, pDupB].find? (fun q => decide (pkey q = pkey pDupA)) = some pDupA) ∧
    (pDupB ∈ [pDupA, pDupB] ∧
      ∃ q ∈ dedupPidPort [pDupA, pDupB], pkey q = pkey pDupB) :=
  ⟨⟨by decide, dedup_keeps_first_occurrence.1 [pDupA, pDupB] pDupA (by decide)⟩,
   ⟨by decide, dedup_keeps_first_occurrence.2 [pDupA, pDupB] pDupB (by decide)⟩⟩

/-- Claim C5: the enumeration result has pairwise distinct (pid, port)
keys, is a permutation of the deduplicated records, is sorted with all
numeric ports first in ascending order followed by string ports in
lexicographic order, and the sort is stable: for every port value the
subsequence of records carrying it is exactly the deduplicated-input
subsequence, in order. -/
theorem get_processes_dedup_sorted (raw : List Process) :
    List.Perm (get_processes raw) (dedupPidPort raw) ∧
    (get_processes raw).Pairwise (fun a b => pkey a ≠ pkey b) ∧
    (get_processes raw).Pairwise (fun a b => portLeB a.port b.port = true) ∧
    ∀ prt : Port, (get_processes raw).filter (fun q => decide (q.port = prt)) =
      (dedupPidPort raw).filter (fun q => decide (q.port = prt)) := by
  refine ⟨sortByPortPerm (dedupPidPort raw), ?_, sortByPortSorted (dedupPidPort raw),
    fun prt => filterPortSort prt (dedupPidPort raw)⟩
  exact (dedupGoPairwise raw []).perm (sortByPortPerm (dedupPidPort raw)).symm
    (fun {x y} h e => h e.symm)

/-- Claim C9 counterexample: with N = 20 (5 pages of size 4) and
selectedIndex = 16, the current indicator renders 5 dots with the filled
dot at index 4 = 16 / 4, so it does not wrap after 4 dots; the older
gruyere-py variant instead wraps the filled dot to index 0, which is not
selectedIndex / 4.  In neither variant do the filled-dot-at-page and
wrap-after-4-dots clauses hold together. -/
theorem pagination_wrap_counterexample :
    paginationDots 20 16 4 = some [false, false, false, false, true] ∧
    paginationDotsPy 20 16 4 = some [true, false, false, false, false] := by decide

/-- Claim C9 (amended): for every list longer than the page size 4 and
every selected index in range, the indicator renders exactly one dot per
page, that is ceiling of N / 4 dots; in the current variant the unique
filled dot sits at index selectedIndex / 4 and the indicator never
wraps, while in the older gruyere-py variant the unique filled dot sits
at the wrapped index selectedIndex / 4 mod 4. -/
theorem pagination_indicator_spec (total selected : Nat) (h4 : 4 < total)
    (hs : selected < total) :
    (∀ dots, paginationDots total selected 4 = some dots →
      dots.length = (total + 3) / 4 ∧ selected / 4 < dots.length ∧
      ∀ i, i < dots.length → (dots.getD i false = true ↔ i = selected / 4)) ∧
    (∀ dots, paginationDotsPy total selected 4 = some dots →
      dots.length = (total + 3) / 4 ∧ selected / 4 % 4 < dots.length ∧
      ∀ i, i < dots.length → (dots.getD i false = true ↔ i = selected / 4 % 4)) := by
  have hnle : ¬ (total ≤ 4) := by omega
  have hlen : selected / 4 < (total + 3) / 4 := by omega
  have hlen2 : selected / 4 % 4 < (total + 3) / 4 := by
    have : selected / 4 % 4 ≤ selected / 4 := Nat.mod_le _ _
    omega
  constructor
  · intro dots heq
    rw [paginationDots, if_neg hnle] at heq
    have hd : dots = (List.range ((total + 4 - 1) / 4)).map
        (fun i => decide (i = selected / MAX_DISPLAY_PROCESSES)) := by
      exact (Option.some.injEq _ _ ▸ heq).symm
    subst hd
    have hn : (total + 4 - 1) / 4 = (total + 3) / 4 := by omega
    refine ⟨by simp [hn], by simp [hn, MAX_DISPLAY_PROCESSES, hlen], ?_⟩
    intro i hi
    simp only [List.length_map, List.length_range] at hi
    have hi2 : i < (total + 3) / 4 := by omega
    simp [List.getD_eq_getElem?_getD, List.getElem?_map, List.getElem?_range hi2,
      MAX_DISPLAY_PROCESSES]
  · intro dots heq
    rw [paginationDotsPy, if_neg hnle] at heq
    have hd : dots = (List.range ((total + 4 - 1) / 4)).map
        (fun i => decide (i = selected / 4 % 4)) := by
      exact (Option.some.injEq _ _ ▸ heq).symm
    subst hd
    have hn : (total + 4 - 1) / 4 = (total + 3) / 4 := by omega
    refine ⟨by simp [hn], by simp [hn, hlen2], ?_⟩
    intro i hi
    simp only [List.length_map, List.length_range] at hi
    have hi2 : i < (total + 3) / 4 := by omega
    simp [List.getD_eq_getElem?_getD, List.getElem?_map, List.getElem?_range hi2]

/-- Witness for pagination_indicator_spec at N = 20, selectedIndex = 16:
five dots, the filled one at index 4 in the current variant. -/
theorem pagination_indicator_spec_witness :
    4 < 20 ∧ 16 < 20 ∧
    paginationDots 20 16 4 = some [false, false, false, false, true] ∧
    [false, false, false, false, true].length = (20 + 3) / 4 ∧
    ([false, false, false, false, true].getD 4 false = true ↔ 4 = 16 / 4) :=
  ⟨by decide, by decide, by decide,
   ((pagination_indicator_spec 20 16 (by decide) (by decide)).1
     [false, false, false, false, true] (by decide)).1,
   ((pagination_indicator_spec 20 16 (by decide) (by decide)).1
     [false, false, false, false, true] (by decide)).2.2 4 (by decide)⟩

theorem stepUpEq (E : List Process) (s : SessState) (k : KeyIn) (hk : navUp k = true) :
    step E s k = { s with selected := max 0 (s.selected - 1) } := by
  simp [step, hk]

theorem stepDownEq (E : List Process) (s : SessState) (k : KeyIn) (hk : navDown k = true) :
    step E s k = { s with selected := min ((s.processes.length : Int) - 1) (s.selected + 1) } := by
  have hu : navUp k = false := by
    cases k <;> simp_all [navUp, navDown]
  simp [step, hu, hk]

theorem stepEditCharEq (E : List Process) (s : SessState) (c : Char)
    (hf : s.isFiltering = true) (hk : c ≠ 'k') (hj : c ≠ 'j')
    (hp : isPrintableCh c = true) :
    step E s (KeyIn.printable c) =
      { s with filterText := s.filterText.push c,
               processes := apply_filter (s.filterText.push c) (get_processes E),
               selected := 0 } := by
  have h1 : navUp (KeyIn.printable c) = false := by simp [navUp, hk]
  have h2 : navDown (KeyIn.printable c) = false := by simp [navDown, hj]
  simp [step, h1, h2, hf, stepFiltering, hp]

theorem stepIgnoredCharEq (E : List Process) (s : SessState) (c : Char)
    (hf : s.isFiltering = true) (hk : c ≠ 'k') (hj : c ≠ 'j')
    (hp : isPrintableCh c = false) :
    step E s (KeyIn.printable c) = s := by
  have h1 : navUp (KeyIn.printable c) = false := by simp [navUp, hk]
  have h2 : navDown (KeyIn.printable c) = false := by simp [navDown, hj]
  simp [step, h1, h2, hf, stepFiltering, hp]

theorem stepBackspaceTextEq (E : List Process) (s : SessState)
    (hf : s.isFiltering = true) (ht : s.filterText ≠ "") :
    step E s KeyIn.backspace =
      { s with filterText := strDropLast s.filterText,
               processes := apply_filter (strDropLast s.filterText) (get_processes E),
               selected := 0 } := by
  simp [step, navUp, navDown, hf, stepFiltering, ht]

/-- Claim C3 counterexample: in filtering mode with the CLI port filter
80 active and the OS enumeration holding only pNode on port 3000, typing
the letter n recomputes the visible set from the raw enumeration and
yields [pNode], although the CLI-narrowed base set is empty — the edit
path ignores the CLI-level filters. -/
theorem filtering_edit_ignores_cli_counterexample :
    sCliFiltering.cliPort = some 80 ∧
    (step [pNode] sCliFiltering (KeyIn.printable 'n')).processes = [pNode] ∧
    apply_filter "n" (applyCliFilters (some 80) none none (get_processes [pNode])) = [] := by
  decide

/-- Claim C3 (amended): in filtering mode, every edit of the filter text
(appending a printable character, or backspacing one character off a
non-empty text) recomputes the visible set by applying the interactive
substring filter to a freshly re-enumerated base set that is NOT
narrowed by the CLI-level filters, and resets selectedIndex to 0. -/
theorem filtering_edit_recomputes (E : List Process) (s : SessState) (c : Char)
    (hf : s.isFiltering = true) (hk : c ≠ 'k') (hj : c ≠ 'j')
    (hp : isPrintableCh c = true) (ht : s.filterText ≠ "") :
    ((step E s (KeyIn.printable c)).processes =
        apply_filter (s.filterText.push c) (get_processes E) ∧
      (step E s (KeyIn.printable c)).selected = 0 ∧
      (step E s (KeyIn.printable c)).filterText = s.filterText.push c) ∧
    ((step E s KeyIn.backspace).processes =
        apply_filter (strDropLast s.filterText) (get_processes E) ∧
      (step E s KeyIn.backspace).selected = 0 ∧
      (step E s KeyIn.backspace).filterText = strDropLast s.filterText) := by
  rw [stepEditCharEq E s c hf hk hj hp, stepBackspaceTextEq E s hf ht]
  exact ⟨⟨rfl, rfl, rfl⟩, rfl, rfl, rfl⟩

/-- Witness for filtering_edit_recomputes: typing the letter n onto the
filter text x over the enumeration [pNode]. -/
theorem filtering_edit_recomputes_witness :
    (sEmptyFiltering.isFiltering = true ∧ 'n' ≠ 'k' ∧ 'n' ≠ 'j' ∧
      isPrintableCh 'n' = true ∧ sEmptyFiltering.filterText ≠ "") ∧
    (step [pNode] sEmptyFiltering (KeyIn.printable 'n')).processes =
      apply_filter (sEmptyFiltering.filterText.push 'n') (get_processes [pNode]) ∧
    (step [pNode] sEmptyFiltering KeyIn.backspace).selected = 0 :=
  ⟨⟨by decide, by decide, by decide, by decide, by decide⟩,
   (filtering_edit_recomputes [pNode] sEmptyFiltering 'n' (by decide) (by decide)
     (by decide) (by decide) (by decide)).1.1,
   (filtering_edit_recomputes [pNode] sEmptyFiltering 'n' (by decide) (by decide)
     (by decide) (by decide) (by decide)).2.2.1⟩

/-- Claim C2 counterexample: in the filtering state with an empty
visible set (which satisfies the claimed invariant), pressing Down sets
selectedIndex to -1, not 0 — min(len(processes) - 1, selected + 1)
evaluates to min(-1, 1). -/
theorem down_on_empty_counterexample :
    selInv sEmptyFiltering ∧
    (step [] sEmptyFiltering KeyIn.down).processes = [] ∧
    (step [] sEmptyFiltering KeyIn.down).selected = -1 := by
  decide


theorem stepBackspaceExitSel (E : List Process) (s : SessState)
    (hf : s.isFiltering = true) (ht : s.filterText = "") :
    (step E s KeyIn.backspace).selected = 0 := by
  simp [step, navUp, navDown, hf, stepFiltering, ht]

/-- Any state whose selection is 0 satisfies the selection invariant. -/
theorem selInvOfZero (s : SessState) (h : s.selected = 0) : selInv s :=
  ⟨by omega, by omega⟩

/-- Claim C2 (amended): starting from a state satisfying the selection
invariant, Up keeps it in every mode; Down keeps it when the visible set
is non-empty but drives selectedIndex to -1 when it is empty; filter
edits and the filtering-mode backspace re-establish it (selectedIndex
becomes 0); a background-refresh tick re-establishes it; and the
post-kill re-enumeration re-establishes it when the new enumeration is
non-empty but leaves selectedIndex at -1 when it comes back empty. -/
theorem selection_invariant (E : List Process) (s : SessState) (hinv : selInv s) :
    (∀ k, navUp k = true → selInv (step E s k)) ∧
    (s.processes ≠ [] → ∀ k, navDown k = true → selInv (step E s k)) ∧
    (s.processes = [] → ∀ k, navDown k = true → (step E s k).selected = -1) ∧
    (s.isFiltering = true → ∀ c, c ≠ 'k' → c ≠ 'j' →
      selInv (step E s (KeyIn.printable c))) ∧
    (s.isFiltering = true → selInv (step E s KeyIn.backspace)) ∧
    selInv (refreshStep E s) ∧
    (∀ (world : Int → Option Bool) (E2 : List Process) (p : Process) (s2 : SessState),
      confirmKillYes world E2 s p = Except.ok s2 →
      (get_processes E2 ≠ [] → selInv s2) ∧ (get_processes E2 = [] → s2.selected = -1)) := by
  obtain ⟨h0, hcase⟩ := hinv
  refine ⟨?_, ?_, ?_, ?_, ?_, ?_, ?_⟩
  · intro k hk
    rw [stepUpEq E s k hk]
    exact show 0 ≤ max 0 (s.selected - 1) ∧
        (max 0 (s.selected - 1) < (s.processes.length : Int) ∨
          (s.processes.length = 0 ∧ max 0 (s.selected - 1) = 0)) by omega
  · intro hne k hk
    rw [stepDownEq E s k hk]
    have hlen : 0 < s.processes.length := List.length_pos.mpr hne
    exact show 0 ≤ min ((s.processes.length : Int) - 1) (s.selected + 1) ∧
        (min ((s.processes.length : Int) - 1) (s.selected + 1) < (s.processes.length : Int) ∨
          (s.processes.length = 0 ∧
            min ((s.processes.length : Int) - 1) (s.selected + 1) = 0)) by omega
  · intro hemp k hk
    rw [stepDownEq E s k hk]
    have hlen : s.processes.length = 0 := by rw [hemp]; rfl
    exact show min ((s.processes.length : Int) - 1) (s.selected + 1) = -1 by omega
  · intro hf c hk hj
    cases hp : isPrintableCh c
    · rw [stepIgnoredCharEq E s c hf hk hj hp]
      exact ⟨h0, hcase⟩
    · rw [stepEditCharEq E s c hf hk hj hp]
      exact selInvOfZero _ rfl
  · by_cases ht : s.filterText = ""
    · intro hf
      exact selInvOfZero _ (stepBackspaceExitSel E s hf ht)
    · intro hf
      rw [stepBackspaceTextEq E s hf ht]
      exact selInvOfZero _ rfl
  · have key : ∀ (ps : List Process) (sel : Int),
        (0 ≤ sel ∧ (sel < (ps.length : Int) ∨ (ps.length = 0 ∧ sel = 0))) →
        selInv { s with processes := ps, selected := sel } := fun ps sel h => h
    refine key _ _ ?_
    constructor
    · split_ifs with h1 h2
      · have := List.length_pos.mpr h1.2
        omega
      · omega
      · omega
    · split_ifs with h1 h2
      · have := List.length_pos.mpr h1.2
        omega
      · right
        rw [List.length_eq_zero.mpr h2]
        omega
      · left
        have hlt : ¬ (((get_filtered_processes s.cliPort s.cliUser s.cliCommand
            s.isFiltering s.filterText E).length : Int) ≤ s.selected) :=
          fun hle => h1 ⟨hle, h2⟩
        omega
  · intro world E2 p s2 heq
    simp only [confirmKillYes, kill_process] at heq
    cases hw : world p.pid with
    | none =>
      rw [hw] at heq
      simp at heq
    | some b =>
      cases b
      · rw [hw] at heq
        simp at heq
      · rw [hw] at heq
        simp only [Except.ok.injEq] at heq
        subst heq
        constructor
        · intro hne
          have hlen : 0 < (get_processes E2).length := List.length_pos.mpr hne
          exact show 0 ≤ min s.selected (((get_processes E2).length : Int) - 1) ∧
              (min s.selected (((get_processes E2).length : Int) - 1) <
                  ((get_processes E2).length : Int) ∨
                ((get_processes E2).length = 0 ∧
                  min s.selected (((get_processes E2).length : Int) - 1) = 0)) by omega
        · intro hemp
          have hlen : (get_processes E2).length = 0 := by rw [hemp]; rfl
          exact show min s.selected (((get_processes E2).length : Int) - 1) = -1 by omega

/-- Witness for selection_invariant: the browse state over the two
sample processes satisfies the invariant and keeps it after Up. -/
theorem selection_invariant_witness :
    selInv sBrowse ∧ selInv (step [] sBrowse KeyIn.up) :=
  ⟨by decide, (selection_invariant [] sBrowse (by decide)).1 KeyIn.up rfl⟩

theorem stringPushData (t : String) (c : Char) : t.push c = ⟨t.data ++ [c]⟩ := by
  cases t
  rfl

theorem pyIndexZero (l : List α) : pyIndex l 0 = l.head? := by
  cases l <;> simp [pyIndex]

theorem stepSlashEq (E : List Process) (s : SessState) (hb : s.isFiltering = false) :
    step E s (KeyIn.printable '/') = { s with isFiltering := true, filterText := "" } := by
  have h1 : navUp (KeyIn.printable '/') = false := by decide
  have h2 : navDown (KeyIn.printable '/') = false := by decide
  have hd : ('/' : Char) ≠ 'd' := by decide
  have hq : ('/' : Char) ≠ 'q' := by decide
  simp [step, h1, h2, hb, stepNormal, hd, hq]

theorem stepEnterFilteringEq (E : List Process) (s : SessState)
    (hf : s.isFiltering = true) (hne : s.processes ≠ []) :
    step E s KeyIn.enter =
      { s with isFiltering := false, processToKill := pyIndex s.processes s.selected } := by
  simp [step, navUp, navDown, hf, stepFiltering, hne]

theorem typingRun (E : List Process) (cs : List Char) :
    ∀ s : SessState, s.isFiltering = true →
    (∀ c ∈ cs, isPrintableCh c = true ∧ c ≠ 'k' ∧ c ≠ 'j') →
    (runSteps E s (cs.map KeyIn.printable)).isFiltering = true ∧
    (runSteps E s (cs.map KeyIn.printable)).filterText.data = s.filterText.data ++ cs ∧
    (runSteps E s (cs.map KeyIn.printable)).selected =
      (if cs = [] then s.selected else 0) ∧
    (runSteps E s (cs.map KeyIn.printable)).processes =
      (if cs = [] then s.processes
       else apply_filter ⟨s.filterText.data ++ cs⟩ (get_processes E)) := by
  induction cs with
  | nil =>
    intro s hf _
    simp [runSteps, hf]
  | cons c cs2 ih =>
    intro s hf hall
    obtain ⟨hp, hk, hj⟩ := hall c (List.mem_cons_self _ _)
    have hrun : runSteps E s ((c :: cs2).map KeyIn.printable) =
        runSteps E (step E s (KeyIn.printable c)) (cs2.map KeyIn.printable) := rfl
    rw [hrun, stepEditCharEq E s c hf hk hj hp, stringPushData]
    obtain ⟨i1, i2, i3, i4⟩ :=
      ih { s with filterText := ⟨s.filterText.data ++ [c]⟩,
                  processes := apply_filter ⟨s.filterText.data ++ [c]⟩ (get_processes E),
                  selected := 0 }
        hf (fun d hd => hall d (List.mem_cons_of_mem c hd))
    refine ⟨i1, ?_, ?_, ?_⟩
    · rw [i2]
      simp
    · rw [i3]
      by_cases hcs2 : cs2 = [] <;> simp [hcs2]
    · rw [i4]
      by_cases hcs2 : cs2 = [] <;> simp [hcs2]

/-- Claim C4 counterexample: from the browse state over [pNode, pPython],
pressing the slash key, typing n o d, pressing Enter (which captures
pNode) and then cancelling with n leaves the visible set as the
interactively filtered [pNode]; the original set [pNode, pPython] is not
restored. -/
theorem cancel_does_not_restore_counterexample :
    sBrowse.processes = [pNode, pPython] ∧
    (runSteps [pNode, pPython] sBrowse
      [KeyIn.printable '/', KeyIn.printable 'n', KeyIn.printable 'o', KeyIn.printable 'd',
       KeyIn.enter]).processToKill = some pNode ∧
    (cancelKill (runSteps [pNode, pPython] sBrowse
      [KeyIn.printable '/', KeyIn.printable 'n', KeyIn.printable 'o', KeyIn.printable 'd',
       KeyIn.enter])).processes = [pNode] := by
  decide

/-- Claim C4 (amended): from Browse, pressing slash then typing filter
text that matches at least one process and pressing Enter transitions to
ConfirmKill with the record at selectedIndex (the head of the filtered
list, since every edit resets the selection) captured; pressing n in
ConfirmKill returns to Browse with processToKill cleared but with the
visible set left as the interactively filtered set — the original
CLI-filtered set is restored only by a later background refresh. -/
theorem filter_select_cancel (E : List Process) (s : SessState) (cs : List Char)
    (hb : s.isFiltering = false) (hcs : cs ≠ [])
    (hall : ∀ c ∈ cs, isPrintableCh c = true ∧ c ≠ 'k' ∧ c ≠ 'j')
    (hne : apply_filter ⟨cs⟩ (get_processes E) ≠ []) :
    (runSteps E s (KeyIn.printable '/' :: cs.map KeyIn.printable ++ [KeyIn.enter])).processToKill =
      (apply_filter ⟨cs⟩ (get_processes E)).head? ∧
    (runSteps E s (KeyIn.printable '/' :: cs.map KeyIn.printable ++ [KeyIn.enter])).isFiltering =
      false ∧
    (cancelKill (runSteps E s
        (KeyIn.printable '/' :: cs.map KeyIn.printable ++ [KeyIn.enter]))).processes =
      apply_filter ⟨cs⟩ (get_processes E) ∧
    (cancelKill (runSteps E s
        (KeyIn.printable '/' :: cs.map KeyIn.printable ++ [KeyIn.enter]))).processToKill =
      none := by
  have hsplit : runSteps E s (KeyIn.printable '/' :: cs.map KeyIn.printable ++ [KeyIn.enter]) =
      step E (runSteps E (step E s (KeyIn.printable '/')) (cs.map KeyIn.printable))
        KeyIn.enter := by
    simp [runSteps, List.foldl_append]
  obtain ⟨t1, t2, t3, t4⟩ :=
    typingRun E cs { s with isFiltering := true, filterText := "" } rfl hall
  rw [if_neg hcs] at t3 t4
  have t4' : (runSteps E { s with isFiltering := true, filterText := "" }
      (cs.map KeyIn.printable)).processes = apply_filter ⟨cs⟩ (get_processes E) := by
    rw [t4]
    simp
  have hneR : (runSteps E { s with isFiltering := true, filterText := "" }
      (cs.map KeyIn.printable)).processes ≠ [] := by
    rw [t4']
    exact hne
  rw [hsplit, stepSlashEq E s hb,
    stepEnterFilteringEq E _ t1 hneR]
  refine ⟨?_, rfl, ?_, rfl⟩
  · show pyIndex _ _ = _
    rw [t3, t4', pyIndexZero]
  · show (runSteps E { s with isFiltering := true, filterText := "" }
        (cs.map KeyIn.printable)).processes = _
    exact t4'

/-- Witness for filter_select_cancel: typing n o over the enumeration
[pNode, pPython] captures pNode and cancelling keeps the filtered set. -/
theorem filter_select_cancel_witness :
    (sBrowse.isFiltering = false ∧ (['n', 'o'] : List Char) ≠ [] ∧
      apply_filter ⟨['n', 'o']⟩ (get_processes [pNode, pPython]) ≠ []) ∧
    (runSteps [pNode, pPython] sBrowse
      (KeyIn.printable '/' :: (['n', 'o'] : List Char).map KeyIn.printable ++
        [KeyIn.enter])).processToKill =
      (apply_filter ⟨['n', 'o']⟩ (get_processes [pNode, pPython])).head? ∧
    (cancelKill (runSteps [pNode, pPython] sBrowse
      (KeyIn.printable '/' :: (['n', 'o'] : List Char).map KeyIn.printable ++
        [KeyIn.enter]))).processes =
      apply_filter ⟨['n', 'o']⟩ (get_processes [pNode, pPython]) :=
  ⟨⟨by decide, by decide, by decide⟩,
   (filter_select_cancel [pNode, pPython] sBrowse ['n', 'o'] (by decide) (by decide)
     (by decide) (by decide)).1,
   (filter_select_cancel [pNode, pPython] sBrowse ['n', 'o'] (by decide) (by decide)
     (by decide) (by decide)).2.2.1⟩

/-- Claim C1: the confirmed-kill path of main has no exception handler
around kill_process, so when the target process is already gone, or the
caller lacks permission, the psutil exception propagates out of the
session instead of the failure being recovered silently with a
re-enumeration and a return to Browse.  The theorem evaluates the
embedded kill path at the two failing worlds. -/
theorem confirm_kill_raises_on_failure :
    confirmKillYes (fun _ => none) [] sKill pNode = Except.error KillErr.noSuchProcess ∧
    confirmKillYes (fun _ => some false) [] sKill pNode =
      Except.error KillErr.accessDenied :=
  ⟨rfl, rfl⟩
